import Mathlib

/-!
# web_control/server.go: command encoding, status decoding, LED control, SPA resolver

A shallow embedding of `src/web_control/server.go`.  Go strings and byte slices are
lists of bytes, the file system is a map from path strings to contents, and every
call that can fail in Go takes its outcome from an explicit argument, so that each
handler is a pure function of the request, the environment and the world before.
-/

namespace WebControl

/-! ## Bytes and strings -/

/-- A byte; every byte the program handles is below 256. -/
abbrev Byte := Nat

/-- A Go string or byte slice: a sequence of bytes. -/
abbrev GoString := List Byte

/-- The bytes of an ASCII string literal of the source. -/
def lit (s : String) : GoString := s.toList.map Char.toNat

/-! ## Errors, panics and the world -/

/-- Error values returned by the library calls the program makes. -/
inductive GoError where
  | pathError (op : String) (path : GoString)
  | numError (fn : String) (input : GoString)
  | notExist (path : GoString)
  | notDir (path : GoString)
  | getwdError
  deriving DecidableEq

/-- A panic unwinding the handler: `panic(e)` raised by `check`, or the run-time
panic of indexing an empty slice. -/
inductive Panic where
  | err (e : GoError)
  | indexOutOfRange
  deriving DecidableEq

/-- Equality of results is decidable when equality of errors and values is. -/
instance instDecidableEqExcept {ε α : Type} [DecidableEq ε] [DecidableEq α] :
    DecidableEq (Except ε α) := fun a b =>
  match a, b with
  | .ok x, .ok y => if h : x = y then isTrue (by rw [h]) else isFalse (fun e => h (by cases e; rfl))
  | .error x, .error y =>
    if h : x = y then isTrue (by rw [h]) else isFalse (fun e => h (by cases e; rfl))
  | .ok _, .error _ => isFalse (fun e => by cases e)
  | .error _, .ok _ => isFalse (fun e => by cases e)

/-- The world a handler runs in: the files by path, the journal of the write calls
issued so far (`File.WriteString` and `ioutil.WriteFile`, with target path and data),
and the lines printed on the console by `fmt.Println`. -/
structure World where
  files : GoString → Option GoString
  writes : List (GoString × GoString)
  console : List GoError

/-- The file map with the content at one path replaced. -/
def setFile (files : GoString → Option GoString) (name : GoString) (content : GoString) :
    GoString → Option GoString :=
  fun p => if p = name then some content else files p

/-- An open file, `*os.File`; the program only ever writes to a file it has just
truncated, so the handle is its path. -/
structure File where
  name : GoString
  deriving DecidableEq

/-- Outcomes of the three calls on the event file, given by the environment:
`create` and `close` say whether the call returns an error, `write` is `some n` when
`WriteString` returns an error after `n` bytes reached the file. -/
structure EventFaults where
  create : Bool
  write : Option Nat
  close : Bool
  deriving DecidableEq

/-- The environment in which every call on the event file succeeds. -/
def noFaults : EventFaults := { create := false, write := none, close := false }

/-- Outcome of `ioutil.WriteFile`, given by the environment. -/
inductive WriteFileFault where
  | ok
  | onOpen
  | onWrite (n : Nat)
  | onClose
  deriving DecidableEq

/-! ## Library calls -/

/-- Go `os.Create`: creates the file or truncates it to length zero. -/
def os.Create (fails : Bool) (name : GoString) (w : World) : Except GoError File × World :=
  if fails then (.error (GoError.pathError "open" name), w)
  else (.ok ⟨name⟩, { w with files := setFile w.files name [] })

/-- Go `(*os.File).WriteString` on a file opened by `os.Create`. -/
def File.WriteString (fault : Option Nat) (f : File) (s : GoString) (w : World) :
    (Nat × Option GoError) × World :=
  let old := (w.files f.name).getD []
  match fault with
  | none =>
    ((s.length, none),
      { w with files := setFile w.files f.name (old ++ s), writes := w.writes ++ [(f.name, s)] })
  | some n =>
    (((s.take n).length, some (GoError.pathError "write" f.name)),
      { w with files := setFile w.files f.name (old ++ s.take n),
               writes := w.writes ++ [(f.name, s)] })

/-- Go `(*os.File).Close`. -/
def File.Close (fails : Bool) (f : File) (w : World) : Option GoError × World :=
  if fails then (some (GoError.pathError "close" f.name), w) else (none, w)

/-- Go `fmt.Println(err)`. -/
def fmt.Println (e : GoError) (w : World) : World :=
  { w with console := w.console ++ [e] }

/-- Go `ioutil.ReadFile`: the whole content, or an error when the file is missing or
the read fails. -/
def ioutil.ReadFile (fails : Bool) (name : GoString) (w : World) : GoString × Option GoError :=
  if fails then ([], some (GoError.pathError "read" name))
  else match w.files name with
    | none => ([], some (GoError.pathError "open" name))
    | some c => (c, none)

/-- Go `ioutil.WriteFile`: open with truncation, write, close. -/
def ioutil.WriteFile (fault : WriteFileFault) (name : GoString) (data : GoString) (w : World) :
    Option GoError × World :=
  let w1 := { w with writes := w.writes ++ [(name, data)] }
  match fault with
  | .ok => (none, { w1 with files := setFile w.files name data })
  | .onOpen => (some (GoError.pathError "open" name), w1)
  | .onWrite n =>
    (some (GoError.pathError "write" name), { w1 with files := setFile w.files name (data.take n) })
  | .onClose => (some (GoError.pathError "close" name), { w1 with files := setFile w.files name data })

/-- Go conversion `string(b)` of a byte: the UTF-8 encoding of the code point `b`. -/
def stringOfByte (b : Byte) : GoString :=
  if b < 128 then [b] else [192 + b / 64, 128 + b % 64]

/-- The digit loop of `strconv.Atoi`: `ch -= '0'` in byte arithmetic, failing on
`ch > 9`, accumulating `n = n*10 + int(ch)`. -/
def atoiDigits : GoString → Nat → Option Nat
  | [], n => some n
  | ch :: rest, n =>
    let d := (ch + 256 - 48) % 256
    if d > 9 then none else atoiDigits rest (n * 10 + d)

/-- Go `strconv.Atoi` on its fast path, which every input of 1 to 9 bytes takes (the
program passes 1 or 2 bytes); the empty string is a number error as well.  The
value returned along with an error is 0. -/
def strconv.Atoi (s : GoString) : Int × Option GoError :=
  let s0 := s
  match s with
  | [] => (0, some (GoError.numError "Atoi" s0))
  | c :: rest =>
    let signed := c = 45 ∨ c = 43
    let s := if signed then rest else s
    if signed ∧ s.length < 1 then (0, some (GoError.numError "Atoi" s0))
    else match atoiDigits s 0 with
      | none => (0, some (GoError.numError "Atoi" s0))
      | some n => (if c = 45 then - (n : Int) else (n : Int), none)

/-- Go `strconv.Itoa`: the decimal text of an integer. -/
def strconv.Itoa (i : Int) : GoString :=
  if i < 0 then 45 :: (Nat.toDigits 10 i.natAbs).map Char.toNat
  else (Nat.toDigits 10 i.natAbs).map Char.toNat

/-! ## Library calls on paths (`path/filepath` on Unix) -/

/-- Go `os.IsPathSeparator` on Unix: the byte is `/`. -/
def IsPathSeparator (c : Byte) : Bool := c = 47

/-- State of the loop of `filepath.Clean`: `rest` is the unread input `path[r:]`,
`out` is the output written so far (`out.buf[:out.w]`, so `out.w` is its length), and
`dotdot` is the index in the output where `..` must stop. -/
structure CleanState where
  rest : GoString
  out : GoString
  dotdot : Nat
  deriving DecidableEq

/-- The backtracking of `filepath.Clean` on a `..` element, after its first `out.w--`:
`for out.w > dotdot && !os.IsPathSeparator(out.index(out.w)) { out.w-- }`; the
argument and the result are `out.w`. -/
def backtrack (out : GoString) (dotdot : Nat) : Nat → Nat
  | 0 => 0
  | w + 1 =>
    if w + 1 > dotdot ∧ ¬ IsPathSeparator (out.getD (w + 1) 0) then backtrack out dotdot w
    else w + 1

/-- One iteration of the loop `for r < n` of `filepath.Clean`. -/
def cleanStep (rooted : Bool) (st : CleanState) : CleanState :=
  match st.rest with
  | [] => st
  | c :: tl =>
    if IsPathSeparator c then
      { st with rest := tl }
    else if c = 46 ∧ (tl = [] ∨ IsPathSeparator (tl.headD 0)) then
      { st with rest := tl }
    else if c = 46 ∧ tl.headD 0 = 46 ∧ (tl.tail = [] ∨ IsPathSeparator (tl.tail.headD 0)) then
      if st.out.length > st.dotdot then
        { rest := tl.tail
          out := st.out.take (backtrack st.out st.dotdot (st.out.length - 1))
          dotdot := st.dotdot }
      else if ¬ rooted then
        let out := (if st.out.length > 0 then st.out ++ [47] else st.out) ++ [46, 46]
        { rest := tl.tail, out := out, dotdot := out.length }
      else
        { st with rest := tl.tail }
    else
      let out :=
        if (rooted ∧ st.out.length ≠ 1) ∨ (¬ rooted ∧ st.out.length ≠ 0) then st.out ++ [47]
        else st.out
      { rest := (c :: tl).dropWhile (fun b => !IsPathSeparator b)
        out := out ++ (c :: tl).takeWhile (fun b => !IsPathSeparator b)
        dotdot := st.dotdot }

/-- The loop `for r < n` of `filepath.Clean`, run for at most `fuel` iterations. -/
def cleanLoop (rooted : Bool) : Nat → CleanState → CleanState
  | 0, st => st
  | fuel + 1, st => if st.rest = [] then st else cleanLoop rooted fuel (cleanStep rooted st)

/-- Go `filepath.Clean` on Unix (no volume name, `FromSlash` is the identity).  Every
iteration reads at least one byte, so `len(path)` iterations are enough
(`cleanLoop_finishes`). -/
def filepath.Clean (path : GoString) : GoString :=
  if path = [] then lit "."
  else
    let rooted := IsPathSeparator (path.headD 0)
    let st0 : CleanState :=
      if rooted then { rest := path.tail, out := [47], dotdot := 1 }
      else { rest := path, out := [], dotdot := 0 }
    let st := cleanLoop rooted path.length st0
    if st.out.length = 0 then [46] else st.out

/-- Go `strings.Join(elems, "/")`. -/
def strings.Join (elems : List GoString) (sep : GoString) : GoString :=
  match elems with
  | [] => []
  | [e] => e
  | e :: es => e ++ sep ++ strings.Join es sep

/-- Go `filepath.Join` on Unix: the elements from the first non-empty one on, joined
by `/` and cleaned; the empty string when all are empty. -/
def filepath.Join (elem : List GoString) : GoString :=
  match elem.dropWhile (fun e => e = []) with
  | [] => []
  | es => filepath.Clean (strings.Join es (lit "/"))

/-- Go `filepath.IsAbs` on Unix: `strings.HasPrefix(path, "/")`. -/
def filepath.IsAbs (path : GoString) : Bool := path.head? = some 47

/-- Go `filepath.Abs` on Unix; `getwd` is what `os.Getwd` returns. -/
def filepath.Abs (getwd : GoString × Option GoError) (path : GoString) :
    GoString × Option GoError :=
  if filepath.IsAbs path then (filepath.Clean path, none)
  else match getwd with
    | (_, some err) => ([], some err)
    | (wd, none) => (filepath.Join [wd, path], none)

/-- Go `os.IsNotExist`: true of the error "no such file or directory" (`ENOENT`) only;
the error "not a directory" (`ENOTDIR`) is not one of its cases. -/
def os.IsNotExist (err : Option GoError) : Bool :=
  match err with
  | some (GoError.notExist _) => true
  | _ => false

/-- The kind of an entry on disk. -/
inductive FileKind where
  | regular
  | directory
  deriving DecidableEq

/-- The proper ancestors of a path, shortest first: its text before each separator
that is not its first byte. -/
def ancestors (path : GoString) : List GoString :=
  ((List.range path.length).filter (fun i => 0 < i ∧ path.getD i 0 = 47)).map
    (fun i => path.take i)

/-- The error of Go `os.Stat(path)` on a disk given by its entries: the first ancestor
that is not a directory decides ("not a directory" when it is a regular file, "no such
file or directory" when it is missing); with all ancestors directories, a missing
entry is "no such file or directory" and an entry gives no error. -/
def os.Stat (disk : GoString → Option FileKind) (path : GoString) : Option GoError :=
  match (ancestors path).find? (fun a => disk a ≠ some FileKind.directory) with
  | some a =>
    if disk a = some FileKind.regular then some (GoError.notDir path)
    else some (GoError.notExist path)
  | none => if disk path = none then some (GoError.notExist path) else none

/-- Go `strings.HasSuffix`. -/
def strings.HasSuffix (s suffix : GoString) : Bool :=
  suffix.length ≤ s.length ∧ s.drop (s.length - suffix.length) = suffix

/-- Go `strings.FieldsFunc(v, f)`: the maximal runs of bytes on which `f` is false;
`cur` is the run being read. -/
def fieldsFunc (f : Byte → Bool) : GoString → GoString → List GoString
  | [], cur => if cur = [] then [] else [cur]
  | c :: cs, cur =>
    if f c then (if cur = [] then fieldsFunc f cs [] else cur :: fieldsFunc f cs [])
    else fieldsFunc f cs (cur ++ [c])

/-- Go `isSlashRune` of `net/http`: `/` or `\`. -/
def isSlashRune (c : Byte) : Bool := c = 47 ∨ c = 92

/-- Go `containsDotDot` of `net/http`: some field between slashes is `..` (its first
test, `strings.Contains(v, "..")`, only skips the split when no field can be `..`). -/
def containsDotDot (v : GoString) : Bool :=
  (fieldsFunc isSlashRune v []).contains [46, 46]

/-! ## The program -/

/-- Constant `BLUE_LED` of the source. -/
def BLUE_LED : GoString := lit "/sys/class/gpio/gpio76/value"

/-- Constant `YELLOW_LED` of the source. -/
def YELLOW_LED : GoString := lit "/sys/class/gpio/gpio77/value"

/-- Variable `EVENT_FILE` of the source; it is never assigned. -/
def EVENT_FILE : GoString := lit "event"

/-- The request variables `mux.Vars(r)`: a Go map, whose lookup of an absent key is
the empty string. -/
abbrev Vars := GoString → GoString

/-- What a handler did to its `http.ResponseWriter`. -/
inductive Response where
  | written (body : GoString)
  | error (code : Nat) (err : GoError)
  | errorText (code : Nat) (msg : GoString)
  | redirect (code : Nat) (location : GoString)
  | serveFile (name : GoString)
  | fileServer (root : GoString) (urlPath : GoString)
  deriving DecidableEq

/-- Go `http.ServeFile(w, r, name)`, with `urlPath` the `r.URL.Path` it looks at: a
request path with a `..` element is answered 400 "invalid URL path", a request path
that ends in `/index.html` is answered by the redirect 301 to `./`
(`localRedirect`), and only otherwise does the library go on to open and serve the
file `name`. -/
def http.ServeFile (urlPath : GoString) (name : GoString) : Response :=
  if containsDotDot urlPath then Response.errorText 400 (lit "invalid URL path")
  else if strings.HasSuffix urlPath (lit "/index.html") then Response.redirect 301 (lit "./")
  else Response.serveFile name

/-- The type `spaHandler`. -/
structure spaHandler where
  staticPath : GoString
  indexPath : GoString
  deriving DecidableEq

/-- The method `spaHandler.ServeHTTP`; `urlPath` is `r.URL.Path`, `getwd` is what
`os.Getwd` returns and `stat path` is the error `os.Stat(path)` returns (none when
the entry exists). -/
def spaHandler.ServeHTTP (h : spaHandler) (getwd : GoString × Option GoError)
    (stat : GoString → Option GoError) (urlPath : GoString) : Response :=
  match filepath.Abs getwd urlPath with
  | (_, some err) => Response.error 400 err
  | (path, none) =>
    let path := filepath.Join [h.staticPath, path]
    match stat path with
    | some err =>
      if os.IsNotExist (some err) then
        http.ServeFile urlPath (filepath.Join [h.staticPath, h.indexPath])
      else Response.error 500 err
    | none => Response.fileServer h.staticPath urlPath

/-- The handler `spa` built in `main`. -/
def spa : spaHandler := { staticPath := lit "static", indexPath := lit "index.html" }

/-- The function `check`: panics on a non-nil error. -/
def check (e : Option GoError) : Except Panic Unit :=
  match e with
  | some e => .error (Panic.err e)
  | none => .ok ()

/-- The function `miioMotorMove`; `MOTORD_FOLDER` is the global set at start-up. -/
def miioMotorMove (MOTORD_FOLDER : GoString) (flt : EventFaults)
    (motor direction steps : GoString) (w : World) : World :=
  match os.Create flt.create (MOTORD_FOLDER ++ lit "/" ++ EVENT_FILE) w with
  | (.error err, w) => fmt.Println err w
  | (.ok f, w) =>
    match File.WriteString flt.write f (motor ++ lit " " ++ direction ++ lit " " ++ steps) w with
    | ((_, some err), w) =>
      let w := fmt.Println err w
      (File.Close flt.close f w).2
    | ((_, none), w) =>
      match File.Close flt.close f w with
      | (some err, w) => fmt.Println err w
      | (none, w) => w

/-- The function `miioMotorGoto`. -/
def miioMotorGoto (MOTORD_FOLDER : GoString) (flt : EventFaults)
    (hor ver : GoString) (w : World) : World :=
  match os.Create flt.create (MOTORD_FOLDER ++ lit "/" ++ EVENT_FILE) w with
  | (.error err, w) => fmt.Println err w
  | (.ok f, w) =>
    match File.WriteString flt.write f (lit "goto " ++ hor ++ lit " " ++ ver) w with
    | ((_, some err), w) =>
      let w := fmt.Println err w
      (File.Close flt.close f w).2
    | ((_, none), w) =>
      match File.Close flt.close f w with
      | (some err, w) => fmt.Println err w
      | (none, w) => w

/-- The function `readPositionStatus`; the error of `strconv.Atoi` is assigned and
not looked at. -/
def readPositionStatus (MOTORD_FOLDER : GoString) (readFails : Bool) (w : World) :
    Except Panic Int :=
  match ioutil.ReadFile readFails (MOTORD_FOLDER ++ lit "/" ++ lit "status") w with
  | (dat, err) =>
    match check err with
    | .error p => .error p
    | .ok _ =>
      match dat with
      | [] => .error Panic.indexOutOfRange
      | b :: _ =>
        let s := stringOfByte b
        match strconv.Atoi s with
        | (i, _) => .ok i

/-- The function `miioLedControl`. -/
def miioLedControl (fault : WriteFileFault) (led : Int) (value : Int) (w : World) :
    Except Panic Unit × World :=
  let valueString := strconv.Itoa value
  let data := valueString
  if led = 1 then
    match ioutil.WriteFile fault YELLOW_LED data w with
    | (err, w) => (check err, w)
  else
    match ioutil.WriteFile fault BLUE_LED data w with
    | (err, w) => (check err, w)

/-- The handler `ledControlRoute`; it writes nothing to the response. -/
def ledControlRoute (fault : WriteFileFault) (params : Vars) (w : World) :
    Except Panic Response × World :=
  let color := params (lit "color")
  let value := params (lit "value")
  let ledNum : Int := if lit "yellow" = color then 1 else 0
  let r := if value = lit "on" then miioLedControl fault ledNum 1 w
           else miioLedControl fault ledNum 0 w
  match r with
  | (.error p, w) => (.error p, w)
  | (.ok _, w) => (.ok (Response.written []), w)

/-- The handler `motorMoveRoute`. -/
def motorMoveRoute (MOTORD_FOLDER : GoString) (flt : EventFaults) (readFails : Bool)
    (params : Vars) (w : World) : Except Panic Response × World :=
  let motor := params (lit "motor")
  let direction := params (lit "direction")
  let steps := params (lit "steps")
  let w := miioMotorMove MOTORD_FOLDER flt motor direction steps w
  match readPositionStatus MOTORD_FOLDER readFails w with
  | .error p => (.error p, w)
  | .ok status =>
    if status = 0 then (.ok (Response.written (lit "ok")), w)
    else (.ok (Response.written (lit "overflow")), w)

/-- The handler `motorGotoRoute`. -/
def motorGotoRoute (MOTORD_FOLDER : GoString) (flt : EventFaults) (readFails : Bool)
    (params : Vars) (w : World) : Except Panic Response × World :=
  let hor := params (lit "hor")
  let ver := params (lit "ver")
  let w := miioMotorGoto MOTORD_FOLDER flt hor ver w
  match readPositionStatus MOTORD_FOLDER readFails w with
  | .error p => (.error p, w)
  | .ok status =>
    if status = 0 then (.ok (Response.written (lit "ok")), w)
    else (.ok (Response.written (lit "overflow")), w)

/-! ## Vocabulary of the properties -/

/-- A proper path element: non-empty, without a separator, and neither `.` nor `..`. -/
def isName (e : GoString) : Prop :=
  e ≠ [] ∧ (∀ b ∈ e, b ≠ 47) ∧ e ≠ [46] ∧ e ≠ [46, 46]

instance instDecidableIsName (e : GoString) : Decidable (isName e) := by
  unfold isName
  infer_instance

/-- The text `/e1/e2/.../en` of a list of elements. -/
def flat : List GoString → GoString
  | [] => []
  | e :: es => 47 :: e ++ flat es

/-- The elements of a path: the pieces between its separators. -/
def components : GoString → List GoString
  | [] => [[]]
  | c :: cs =>
    if c = 47 then [] :: components cs
    else match components cs with
      | [] => [[c]]
      | e :: es => (c :: e) :: es

/-- A path lies under `root` when it is `root` itself, or starts with `root/` and has
no `..` among the elements that follow. -/
def liesUnder (root p : GoString) : Prop :=
  p = root ∨
    (p.take (root.length + 1) = root ++ [47] ∧ [46, 46] ∉ components (p.drop (root.length + 1)))

instance instDecidableLiesUnder (root p : GoString) : Decidable (liesUnder root p) := by
  unfold liesUnder
  infer_instance

/-- A response stays within `root` when the file it serves by name lies under `root`
and the file server it delegates to is rooted at `root`; an error or a redirect
serves no file. -/
def Response.confined (root : GoString) : Response → Prop
  | .serveFile name => liesUnder root name
  | .fileServer r _ => r = root
  | .written _ => True
  | .error _ _ => True
  | .errorText _ _ => True
  | .redirect _ _ => True

/-- The shape of a cleaned rooted path: `/` alone, or `/e1/.../en` with proper
elements. -/
def RootedClean (out : GoString) : Prop :=
  out = [47] ∨ ∃ es : List GoString, es ≠ [] ∧ (∀ e ∈ es, isName e) ∧ out = flat es

/-! ## Sample worlds -/

/-- A disk on which `static` is a directory holding the regular file `index.html` and
nothing else. -/
def spaDisk : GoString → Option FileKind :=
  fun p =>
    if p = lit "static" then some FileKind.directory
    else if p = lit "static/index.html" then some FileKind.regular
    else none

/-- A world whose status file holds `0`, followed by a newline. -/
def statusZeroWorld : World :=
  { files := fun p => if p = lit "./status" then some (lit "0\n") else none
    writes := [], console := [] }

/-- A world whose status file holds the single byte `x`. -/
def statusGarbageWorld : World :=
  { files := fun p => if p = lit "./status" then some (lit "x") else none
    writes := [], console := [] }

/-! # Theorems -/

/-! ## Paths written and read -/

/-- The literal `"/"` is the single byte 47. -/
theorem lit_slash : lit "/" = [47] := by decide

/-- The literal `" "` is the single byte 32. -/
theorem lit_space : lit " " = [32] := by decide

/-- The bytes of the literal `"status"`. -/
theorem lit_status : lit "status" = [115, 116, 97, 116, 117, 115] := by decide

/-- The bytes of `EVENT_FILE`, the literal `"event"`. -/
theorem EVENT_FILE_eq : EVENT_FILE = [101, 118, 101, 110, 116] := by decide

/-- The status path differs from the event path, whatever the folder. -/
theorem status_ne_event (F : GoString) :
    F ++ lit "/" ++ lit "status" ≠ F ++ lit "/" ++ EVENT_FILE := by
  intro h
  rw [List.append_assoc, List.append_assoc] at h
  have h2 := List.append_cancel_left h
  revert h2
  decide

/-- The status path differs from both LED paths, whatever the folder: it ends in
`s`, they end in `e`. -/
theorem status_ne_led (F : GoString) :
    F ++ lit "/" ++ lit "status" ≠ YELLOW_LED ∧ F ++ lit "/" ++ lit "status" ≠ BLUE_LED := by
  have key : (F ++ lit "/" ++ lit "status").getLast? = some 115 := by
    rw [lit_status]
    simp
  constructor
  · intro h
    rw [h] at key
    revert key
    decide
  · intro h
    rw [h] at key
    revert key
    decide

/-- Writing the event file through `miioMotorMove` leaves every other path as it
was, whatever the outcome of the calls. -/
theorem miioMotorMove_files_other (F : GoString) (flt : EventFaults)
    (motor direction steps : GoString) (w : World) (p : GoString)
    (hp : p ≠ F ++ lit "/" ++ EVENT_FILE) :
    (miioMotorMove F flt motor direction steps w).files p = w.files p := by
  have hp2 : p ≠ F ++ (lit "/" ++ EVENT_FILE) := by simpa using hp
  obtain ⟨c, wr, cl⟩ := flt
  cases c <;> cases wr <;> cases cl <;>
    simp [miioMotorMove, os.Create, File.WriteString, File.Close, fmt.Println, setFile, hp2]

/-- Writing the event file through `miioMotorGoto` leaves every other path as it
was, whatever the outcome of the calls. -/
theorem miioMotorGoto_files_other (F : GoString) (flt : EventFaults)
    (hor ver : GoString) (w : World) (p : GoString)
    (hp : p ≠ F ++ lit "/" ++ EVENT_FILE) :
    (miioMotorGoto F flt hor ver w).files p = w.files p := by
  have hp2 : p ≠ F ++ (lit "/" ++ EVENT_FILE) := by simpa using hp
  obtain ⟨c, wr, cl⟩ := flt
  cases c <;> cases wr <;> cases cl <;>
    simp [miioMotorGoto, os.Create, File.WriteString, File.Close, fmt.Println, setFile, hp2]

/-- The status read only depends on the content of the status file. -/
theorem readPositionStatus_congr (F : GoString) (rd : Bool) (w w' : World)
    (h : w'.files (F ++ lit "/" ++ lit "status") = w.files (F ++ lit "/" ++ lit "status")) :
    readPositionStatus F rd w' = readPositionStatus F rd w := by
  simp only [readPositionStatus, ioutil.ReadFile, h]


/-- The result a move or goto route draws from the status read alone. -/
theorem motorMoveRoute_response (F : GoString) (flt : EventFaults) (rd : Bool)
    (params : Vars) (w : World) :
    (motorMoveRoute F flt rd params w).1 =
      match readPositionStatus F rd w with
      | .error p => .error p
      | .ok status =>
        .ok (Response.written (if status = 0 then lit "ok" else lit "overflow")) := by
  have h := readPositionStatus_congr F rd w
    (miioMotorMove F flt (params (lit "motor")) (params (lit "direction")) (params (lit "steps")) w)
    (miioMotorMove_files_other F flt _ _ _ w _ (status_ne_event F))
  simp only [motorMoveRoute, h]
  cases readPositionStatus F rd w with
  | error p => rfl
  | ok status => by_cases hs : status = 0 <;> simp [hs]

/-- The same for the goto route. -/
theorem motorGotoRoute_response (F : GoString) (flt : EventFaults) (rd : Bool)
    (params : Vars) (w : World) :
    (motorGotoRoute F flt rd params w).1 =
      match readPositionStatus F rd w with
      | .error p => .error p
      | .ok status =>
        .ok (Response.written (if status = 0 then lit "ok" else lit "overflow")) := by
  have h := readPositionStatus_congr F rd w
    (miioMotorGoto F flt (params (lit "hor")) (params (lit "ver")) w)
    (miioMotorGoto_files_other F flt _ _ w _ (status_ne_event F))
  simp only [motorGotoRoute, h]
  cases readPositionStatus F rd w with
  | error p => rfl
  | ok status => by_cases hs : status = 0 <;> simp [hs]

/-- A status file whose first byte is a decimal digit reads as the value of that
digit. -/
theorem readPositionStatus_digit (F : GoString) (w : World) (d : Nat) (rest : GoString)
    (hd : 48 ≤ d ∧ d ≤ 57) (hs : w.files (F ++ lit "/" ++ lit "status") = some (d :: rest)) :
    readPositionStatus F false w = .ok ((d : Int) - 48) := by
  obtain ⟨h1, h2⟩ := hd
  have hlt : d < 128 := by omega
  have h45 : d ≠ 45 := by omega
  have h43 : d ≠ 43 := by omega
  have hmod : (d + 208) % 256 = d - 48 := by omega
  have h9 : ¬ (9 < d - 48) := by omega
  have hs2 : w.files (F ++ (lit "/" ++ lit "status")) = some (d :: rest) := by
    simpa using hs
  simp [readPositionStatus, ioutil.ReadFile, hs2, check, stringOfByte, hlt, strconv.Atoi,
    h45, h43, atoiDigits, hmod, h9]
  omega

/-- Claim C1: with every call on the event file succeeding, `miioMotorMove(motor, direction,
steps)` leaves the event file holding exactly `motor + " " + direction + " " + steps`,
whatever it held before; for `("tilt", "forward", "10")` that is `"tilt forward 10"`. -/
theorem C1_miioMotorMove_event_content (F motor direction steps : GoString) (w : World) :
    (miioMotorMove F noFaults motor direction steps w).files (F ++ lit "/" ++ EVENT_FILE)
        = some (motor ++ lit " " ++ direction ++ lit " " ++ steps)
    ∧ (miioMotorMove F noFaults (lit "tilt") (lit "forward") (lit "10") w).files
        (F ++ lit "/" ++ EVENT_FILE) = some (lit "tilt forward 10") := by
  have key : ∀ m d s : GoString,
      (miioMotorMove F noFaults m d s w).files (F ++ lit "/" ++ EVENT_FILE)
        = some (m ++ lit " " ++ d ++ lit " " ++ s) := by
    intro m d s
    simp [miioMotorMove, noFaults, os.Create, File.WriteString, File.Close, setFile]
  refine ⟨key _ _ _, ?_⟩
  rw [key]
  decide

/-- Claim C2: with every call on the event file succeeding, `miioMotorGoto(hor, ver)` leaves
the event file holding exactly `"goto " + hor + " " + ver`, whatever it held before;
for `("45", "-10")` that is `"goto 45 -10"`. -/
theorem C2_miioMotorGoto_event_content (F hor ver : GoString) (w : World) :
    (miioMotorGoto F noFaults hor ver w).files (F ++ lit "/" ++ EVENT_FILE)
        = some (lit "goto " ++ hor ++ lit " " ++ ver)
    ∧ (miioMotorGoto F noFaults (lit "45") (lit "-10") w).files
        (F ++ lit "/" ++ EVENT_FILE) = some (lit "goto 45 -10") := by
  have key : ∀ h v : GoString,
      (miioMotorGoto F noFaults h v w).files (F ++ lit "/" ++ EVENT_FILE)
        = some (lit "goto " ++ h ++ lit " " ++ v) := by
    intro h v
    simp [miioMotorGoto, noFaults, os.Create, File.WriteString, File.Close, setFile]
  refine ⟨key _ _, ?_⟩
  rw [key]
  decide

/-- Claim C3: when the status file starts with a decimal digit `d`, `readPositionStatus`
returns the value of `d`, and both `motorMoveRoute` and `motorGotoRoute` answer `ok`
for the digit 0 and `overflow` for the digits 1 to 9, whatever follows the first byte,
whatever the route parameters and whatever happened to the event file. -/
theorem C3_status_digit_decoding (F : GoString) (flt : EventFaults) (params : Vars)
    (w : World) (d : Nat) (rest : GoString) (hd : 48 ≤ d ∧ d ≤ 57)
    (hs : w.files (F ++ lit "/" ++ lit "status") = some (d :: rest)) :
    readPositionStatus F false w = .ok ((d : Int) - 48)
    ∧ (motorMoveRoute F flt false params w).1
        = .ok (Response.written (if d = 48 then lit "ok" else lit "overflow"))
    ∧ (motorGotoRoute F flt false params w).1
        = .ok (Response.written (if d = 48 then lit "ok" else lit "overflow")) := by
  have hr := readPositionStatus_digit F w d rest hd hs
  have hz : ((d : Int) - 48 = 0) ↔ d = 48 := by omega
  refine ⟨hr, ?_, ?_⟩
  · rw [motorMoveRoute_response, hr]
    simp only [hz]
  · rw [motorGotoRoute_response, hr]
    simp only [hz]

/-- Claim C3 at the status `0`: the value read is 0 and both routes answer `ok`. -/
theorem C3_status_digit_decoding_witness :
    (48 ≤ 48 ∧ 48 ≤ 57)
    ∧ statusZeroWorld.files (lit "." ++ lit "/" ++ lit "status") = some (48 :: lit "\n")
    ∧ readPositionStatus (lit ".") false statusZeroWorld = .ok ((48 : Nat) - 48 : Int)
    ∧ (motorMoveRoute (lit ".") noFaults false (fun _ => []) statusZeroWorld).1
        = .ok (Response.written (if 48 = 48 then lit "ok" else lit "overflow"))
    ∧ (motorGotoRoute (lit ".") noFaults false (fun _ => []) statusZeroWorld).1
        = .ok (Response.written (if 48 = 48 then lit "ok" else lit "overflow")) :=
  ⟨by decide, by decide,
    C3_status_digit_decoding (lit ".") noFaults (fun _ => []) statusZeroWorld 48 (lit "\n")
      (by decide) (by decide)⟩


/-- A status file whose first byte is not a decimal digit does not stop
`readPositionStatus`: the failed conversion yields 0. -/
theorem readPositionStatus_nondigit (F : GoString) (w : World) (b : Nat) (rest : GoString)
    (hb : ¬ (48 ≤ b ∧ b ≤ 57)) (h256 : b < 256)
    (hs : w.files (F ++ lit "/" ++ lit "status") = some (b :: rest)) :
    readPositionStatus F false w = .ok 0 := by
  have hs2 : w.files (F ++ (lit "/" ++ lit "status")) = some (b :: rest) := by
    simpa using hs
  by_cases hlt : b < 128
  · by_cases hsign : b = 45 ∨ b = 43
    · rcases hsign with h | h <;>
        simp [readPositionStatus, ioutil.ReadFile, hs2, check, stringOfByte, strconv.Atoi, h]
    · have h45 : b ≠ 45 := fun h => hsign (Or.inl h)
      have h43 : b ≠ 43 := fun h => hsign (Or.inr h)
      have h9 : 9 < (b + 208) % 256 := by omega
      simp [readPositionStatus, ioutil.ReadFile, hs2, check, stringOfByte, hlt, strconv.Atoi,
        h45, h43, atoiDigits, h9]
  · have h1 : 192 + b / 64 ≠ 45 := by omega
    have h2 : 192 + b / 64 ≠ 43 := by omega
    have h9 : 9 < (192 + b / 64 + 208) % 256 := by omega
    simp [readPositionStatus, ioutil.ReadFile, hs2, check, stringOfByte, hlt, strconv.Atoi,
      h1, h2, atoiDigits, h9]

/-- Claim C4, the code at a failing input: with the status file holding `x`,
`readPositionStatus` returns 0 instead of failing, and both routes answer `ok`. -/
theorem C4_nondigit_status_reads_as_ok :
    readPositionStatus (lit ".") false statusGarbageWorld = .ok 0
    ∧ (motorMoveRoute (lit ".") noFaults false (fun _ => []) statusGarbageWorld).1
        = .ok (Response.written (lit "ok"))
    ∧ (motorGotoRoute (lit ".") noFaults false (fun _ => []) statusGarbageWorld).1
        = .ok (Response.written (lit "ok")) := by
  decide

/-- The two LED paths differ, and so do the two values written. -/
theorem led_paths_differ : YELLOW_LED ≠ BLUE_LED ∧ lit "1" ≠ lit "0" := by decide

/-- The write call `ledControlRoute` issues. -/
theorem ledControlRoute_writes (fault : WriteFileFault) (params : Vars) (w : World) :
    (ledControlRoute fault params w).2.writes = w.writes ++
      [(if lit "yellow" = params (lit "color") then YELLOW_LED else BLUE_LED,
        if params (lit "value") = lit "on" then lit "1" else lit "0")] := by
  have hi1 : strconv.Itoa 1 = lit "1" := by decide
  have hi0 : strconv.Itoa 0 = lit "0" := by decide
  by_cases hc : lit "yellow" = params (lit "color") <;>
    by_cases hv : params (lit "value") = lit "on" <;>
    cases fault <;>
    simp [ledControlRoute, miioLedControl, ioutil.WriteFile, check, hc, hv, hi1, hi0]

/-- The file `ledControlRoute` leaves when its write succeeds. -/
theorem ledControlRoute_ok_files (params : Vars) (w : World) :
    (ledControlRoute WriteFileFault.ok params w).2.files
        (if lit "yellow" = params (lit "color") then YELLOW_LED else BLUE_LED)
      = some (if params (lit "value") = lit "on" then lit "1" else lit "0") := by
  have hi1 : strconv.Itoa 1 = lit "1" := by decide
  have hi0 : strconv.Itoa 0 = lit "0" := by decide
  by_cases hc : lit "yellow" = params (lit "color") <;>
    by_cases hv : params (lit "value") = lit "on" <;>
    simp [ledControlRoute, miioLedControl, ioutil.WriteFile, check, hc, hv, hi1, hi0, setFile]

/-- Claim C7: `ledControlRoute` issues exactly one write call, whatever its outcome: the
target is the yellow LED path exactly when the colour is `yellow` and the blue LED
path for every other colour, the data is `1` exactly when the value is `on` and `0`
for every other value; when the write succeeds the target file holds that data. -/
theorem C7_ledControlRoute_single_write (fault : WriteFileFault) (params : Vars) (w : World) :
    ∃ target data : GoString,
      (ledControlRoute fault params w).2.writes = w.writes ++ [(target, data)]
      ∧ (target = YELLOW_LED ↔ params (lit "color") = lit "yellow")
      ∧ (target = BLUE_LED ↔ params (lit "color") ≠ lit "yellow")
      ∧ (data = lit "1" ↔ params (lit "value") = lit "on")
      ∧ (data = lit "0" ↔ params (lit "value") ≠ lit "on")
      ∧ (ledControlRoute WriteFileFault.ok params w).2.files target = some data := by
  obtain ⟨hyb, h10⟩ := led_paths_differ
  refine ⟨_, _, ledControlRoute_writes fault params w, ?_, ?_, ?_, ?_,
    ledControlRoute_ok_files params w⟩
  · by_cases hc : lit "yellow" = params (lit "color")
    · simp [hc.symm]
    · have hc2 : ¬ params (lit "color") = lit "yellow" := fun h => hc h.symm
      simp [hc, hc2, hyb.symm]
  · by_cases hc : lit "yellow" = params (lit "color")
    · simp [hc.symm, hyb]
    · have hc2 : ¬ params (lit "color") = lit "yellow" := fun h => hc h.symm
      simp [hc, hc2]
  · by_cases hv : params (lit "value") = lit "on"
    · simp [hv]
    · simp [hv, h10.symm]
  · by_cases hv : params (lit "value") = lit "on"
    · simp [hv, h10]
    · simp [hv]

/-- A failed `os.Create` in `miioMotorMove` and `miioMotorGoto` prints the error and
changes nothing else. -/
theorem event_create_failure_is_printed (F : GoString) (wr : Option Nat) (cl : Bool)
    (a b c : GoString) (w : World) :
    miioMotorMove F ⟨true, wr, cl⟩ a b c w
        = { w with console := w.console ++ [GoError.pathError "open" (F ++ lit "/" ++ EVENT_FILE)] }
    ∧ miioMotorGoto F ⟨true, wr, cl⟩ a b w
        = { w with console := w.console ++ [GoError.pathError "open" (F ++ lit "/" ++ EVENT_FILE)] } := by
  constructor <;> simp [miioMotorMove, miioMotorGoto, os.Create, fmt.Println]

/-- Claim C8: whatever the outcome of the create, write and close calls on the event file,
`miioMotorMove` and `miioMotorGoto` return (a world, no error and no panic), and
`motorMoveRoute` and `motorGotoRoute` go on to read the status file and answer what
the status read on the world before determines; that answer is the one given when
every call on the event file succeeds. -/
theorem C8_event_failures_are_swallowed (F : GoString) (flt : EventFaults) (rd : Bool)
    (params : Vars) (w : World) :
    ((motorMoveRoute F flt rd params w).1 =
      match readPositionStatus F rd w with
      | .error p => .error p
      | .ok status => .ok (Response.written (if status = 0 then lit "ok" else lit "overflow")))
    ∧ ((motorGotoRoute F flt rd params w).1 =
      match readPositionStatus F rd w with
      | .error p => .error p
      | .ok status => .ok (Response.written (if status = 0 then lit "ok" else lit "overflow")))
    ∧ (motorMoveRoute F flt rd params w).1 = (motorMoveRoute F noFaults rd params w).1
    ∧ (motorGotoRoute F flt rd params w).1 = (motorGotoRoute F noFaults rd params w).1 := by
  refine ⟨motorMoveRoute_response F flt rd params w, motorGotoRoute_response F flt rd params w,
    ?_, ?_⟩
  · rw [motorMoveRoute_response, motorMoveRoute_response]
  · rw [motorGotoRoute_response, motorGotoRoute_response]

/-- The world a move or goto route leaves is the one its event write leaves. -/
theorem motorMoveRoute_world (F : GoString) (flt : EventFaults) (rd : Bool)
    (params : Vars) (w : World) :
    (motorMoveRoute F flt rd params w).2 =
      miioMotorMove F flt (params (lit "motor")) (params (lit "direction"))
        (params (lit "steps")) w := by
  simp only [motorMoveRoute]
  split
  · rfl
  · split <;> rfl

/-- The same for the goto route. -/
theorem motorGotoRoute_world (F : GoString) (flt : EventFaults) (rd : Bool)
    (params : Vars) (w : World) :
    (motorGotoRoute F flt rd params w).2 =
      miioMotorGoto F flt (params (lit "hor")) (params (lit "ver")) w := by
  simp only [motorGotoRoute]
  split
  · rfl
  · split <;> rfl

/-- The LED route leaves every path other than the two LED paths as it was. -/
theorem ledControlRoute_files_other (fault : WriteFileFault) (params : Vars) (w : World)
    (p : GoString) (hy : p ≠ YELLOW_LED) (hb : p ≠ BLUE_LED) :
    (ledControlRoute fault params w).2.files p = w.files p := by
  by_cases hc : lit "yellow" = params (lit "color") <;>
    by_cases hv : params (lit "value") = lit "on" <;>
    cases fault <;>
    simp [ledControlRoute, miioLedControl, ioutil.WriteFile, check, hc, hv, setFile, hy, hb]

/-- Claim C9: the status file is never written: after `motorMoveRoute`, `motorGotoRoute` and
`ledControlRoute`, for every folder, request and outcome of the calls, the content at
the status path is what it was before; the paths written are the event path and the
two LED paths, and none of them is the status path. -/
theorem C9_status_file_is_never_written (F : GoString) (flt : EventFaults) (rd : Bool)
    (fault : WriteFileFault) (params : Vars) (w : World) :
    (motorMoveRoute F flt rd params w).2.files (F ++ lit "/" ++ lit "status")
        = w.files (F ++ lit "/" ++ lit "status")
    ∧ (motorGotoRoute F flt rd params w).2.files (F ++ lit "/" ++ lit "status")
        = w.files (F ++ lit "/" ++ lit "status")
    ∧ (ledControlRoute fault params w).2.files (F ++ lit "/" ++ lit "status")
        = w.files (F ++ lit "/" ++ lit "status")
    ∧ F ++ lit "/" ++ lit "status" ≠ F ++ lit "/" ++ EVENT_FILE
    ∧ F ++ lit "/" ++ lit "status" ≠ YELLOW_LED
    ∧ F ++ lit "/" ++ lit "status" ≠ BLUE_LED := by
  refine ⟨?_, ?_, ?_, status_ne_event F, (status_ne_led F).1, (status_ne_led F).2⟩
  · rw [motorMoveRoute_world]
    exact miioMotorMove_files_other F flt _ _ _ w _ (status_ne_event F)
  · rw [motorGotoRoute_world]
    exact miioMotorGoto_files_other F flt _ _ w _ (status_ne_event F)
  · exact ledControlRoute_files_other fault params w _ (status_ne_led F).1 (status_ne_led F).2

/-- Claim C10: the command text does not tell the command kinds apart: for every `hor` and
`ver`, `miioMotorMove("goto", hor, ver)` has exactly the effect of
`miioMotorGoto(hor, ver)`; and two different move requests, `("a b", "c", "d")` and
`("a", "b c", "d")`, have the same effect as well. -/
theorem C10_encoding_is_not_injective :
    (∀ (F : GoString) (flt : EventFaults) (hor ver : GoString) (w : World),
      miioMotorMove F flt (lit "goto") hor ver w = miioMotorGoto F flt hor ver w)
    ∧ (lit "a b", lit "c", lit "d") ≠ (lit "a", lit "b c", lit "d")
    ∧ (∀ (F : GoString) (flt : EventFaults) (w : World),
      miioMotorMove F flt (lit "a b") (lit "c") (lit "d") w
        = miioMotorMove F flt (lit "a") (lit "b c") (lit "d") w) := by
  refine ⟨?_, by decide, ?_⟩
  · intro F flt hor ver w
    have h : lit "goto" ++ lit " " ++ hor ++ lit " " ++ ver = lit "goto " ++ hor ++ lit " " ++ ver := by
      have h0 : lit "goto" ++ lit " " = lit "goto " := by decide
      rw [h0]
    simp only [miioMotorMove, miioMotorGoto, h]
  · intro F flt w
    have h : lit "a b" ++ lit " " ++ lit "c" ++ lit " " ++ lit "d"
        = lit "a" ++ lit " " ++ lit "b c" ++ lit " " ++ lit "d" := by decide
    simp only [miioMotorMove, h]


/-! ## `filepath.Clean` -/

/-- The loop stops when no input is left. -/
theorem cleanLoop_nil (rooted : Bool) (fuel : Nat) (st : CleanState) (h : st.rest = []) :
    cleanLoop rooted fuel st = st := by
  cases fuel <;> simp [cleanLoop, h]

/-- The loop runs one iteration when input is left. -/
theorem cleanLoop_succ (rooted : Bool) (fuel : Nat) (st : CleanState) (h : st.rest ≠ []) :
    cleanLoop rooted (fuel + 1) st = cleanLoop rooted fuel (cleanStep rooted st) := by
  simp [cleanLoop, h]

/-- Dropping an element that starts with a byte other than the separator. -/
theorem dropWhile_cons_nonsep (c : Byte) (tl : GoString) (h : ¬ IsPathSeparator c = true) :
    (c :: tl).dropWhile (fun b => !IsPathSeparator b)
      = tl.dropWhile (fun b => !IsPathSeparator b) := by
  simp [List.dropWhile_cons, h]

/-- Copying an element that starts with a byte other than the separator. -/
theorem takeWhile_cons_nonsep (c : Byte) (tl : GoString) (h : ¬ IsPathSeparator c = true) :
    (c :: tl).takeWhile (fun b => !IsPathSeparator b)
      = c :: tl.takeWhile (fun b => !IsPathSeparator b) := by
  simp [List.takeWhile_cons, h]

/-- Every iteration of the loop reads at least one byte. -/
theorem cleanStep_rest_lt (rooted : Bool) (st : CleanState) (h : st.rest ≠ []) :
    (cleanStep rooted st).rest.length < st.rest.length := by
  obtain ⟨rest, out, dotdot⟩ := st
  cases rest with
  | nil => exact absurd rfl h
  | cons c tl =>
    have htail : tl.tail.length < tl.length + 1 := by
      rw [List.length_tail]; omega
    simp only [cleanStep]
    split_ifs with h1 h2 h3 h4 h5
    · simp
    · simp
    · simpa using htail
    · simpa using htail
    · simpa using htail
    all_goals
      simp only [dropWhile_cons_nonsep c tl h1, List.length_cons]
      have := (List.dropWhile_sublist (fun b => !IsPathSeparator b) (l := tl)).length_le
      omega

/-- The loop of `filepath.Clean` ends by its own test within `len(path)` iterations:
the state returned has no input left. -/
theorem cleanLoop_finishes (rooted : Bool) (fuel : Nat) (st : CleanState)
    (h : st.rest.length ≤ fuel) : (cleanLoop rooted fuel st).rest = [] := by
  induction fuel generalizing st with
  | zero =>
    simp only [cleanLoop]
    exact List.length_eq_zero.mp (Nat.le_zero.mp h)
  | succ n ih =>
    by_cases hr : st.rest = []
    · rw [cleanLoop_nil rooted _ st hr]; exact hr
    · rw [cleanLoop_succ rooted n st hr]
      apply ih
      have := cleanStep_rest_lt rooted st hr
      omega


/-- The loop of `filepath.Clean` as `Clean` runs it, from either initial state and with
`len(path)` iterations, reads the whole path. -/
theorem Clean_reads_whole_path (path : GoString) :
    (cleanLoop true path.length ⟨path.tail, [47], 1⟩).rest = []
    ∧ (cleanLoop false path.length ⟨path, [], 0⟩).rest = [] := by
  constructor
  · apply cleanLoop_finishes
    simp only [List.length_tail]
    omega
  · exact cleanLoop_finishes false _ _ (Nat.le_refl _)

/-- The byte at the separator that precedes the last element. -/
theorem getD_at_separator (pre e : GoString) : (pre ++ 47 :: e).getD pre.length 0 = 47 := by
  rw [List.getD_append_right pre (47 :: e) 0 pre.length (Nat.le_refl _)]
  simp

/-- A byte inside the last element is not a separator. -/
theorem getD_in_element (pre e : GoString) (k : Nat) (he : ∀ b ∈ e, b ≠ 47) (hk : k < e.length) :
    (pre ++ 47 :: e).getD (pre.length + (k + 1)) 0 ≠ 47 := by
  rw [List.getD_append_right pre (47 :: e) 0 _ (by omega)]
  have h1 : pre.length + (k + 1) - pre.length = k + 1 := by omega
  rw [h1, List.getD_cons_succ, List.getD_eq_getElem e 0 hk]
  exact he _ (List.getElem_mem hk)

/-- Backtracking over the last element stops at its separator, or at `dotdot`. -/
theorem backtrack_spec (pre e : GoString) (d : Nat) (he : ∀ b ∈ e, b ≠ 47) :
    ∀ k : Nat, k ≤ e.length → d ≤ pre.length + k →
      backtrack (pre ++ 47 :: e) d (pre.length + k) = max d pre.length := by
  intro k
  induction k with
  | zero =>
    intro _ hd
    cases hp : pre.length with
    | zero =>
      rw [hp] at hd
      simp only [Nat.add_zero, backtrack]
      omega
    | succ n =>
      have hsep := getD_at_separator pre e
      rw [hp] at hsep hd
      simp only [Nat.add_zero, backtrack, hsep, IsPathSeparator]
      simp
      omega
  | succ k ih =>
    intro hk hd
    have hns := getD_in_element pre e k he (by omega)
    have hw : pre.length + (k + 1) = (pre.length + k) + 1 := by omega
    rw [hw] at hns hd ⊢
    simp only [backtrack, IsPathSeparator]
    by_cases hgt : pre.length + k + 1 > d
    · have : ¬ (decide ((pre ++ 47 :: e).getD (pre.length + k + 1) 0 = 47) = true) := by
        simpa using hns
      rw [if_pos ⟨hgt, this⟩]
      exact ih (by omega) (by omega)
    · rw [if_neg (fun h => hgt h.1)]
      omega

/-- The text of a list of elements with one more element at the end. -/
theorem flat_append (es : List GoString) (e : GoString) :
    flat (es ++ [e]) = flat es ++ 47 :: e := by
  induction es with
  | nil => simp [flat]
  | cons a as ih => simp [flat, ih]

/-- The text of a non-empty list of proper elements has at least two bytes. -/
theorem flat_length_ge (es : List GoString) (hne : es ≠ []) (hn : ∀ e ∈ es, isName e) :
    2 ≤ (flat es).length := by
  cases es with
  | nil => exact absurd rfl hne
  | cons a as =>
    have ha := (hn a (List.mem_cons_self a as)).1
    have : 1 ≤ a.length := List.length_pos.mpr ha
    simp only [flat, List.length_cons, List.length_append]
    omega


/-- The element copied in the default case of the loop is a proper element: the
cases before it have taken the separators, `.` and `..`. -/
theorem takeWhile_isName (c : Byte) (tl : GoString) (h1 : ¬ IsPathSeparator c = true)
    (h2 : ¬ (c = 46 ∧ (tl = [] ∨ IsPathSeparator (tl.headD 0) = true)))
    (h3 : ¬ (c = 46 ∧ tl.headD 0 = 46 ∧
      (tl.tail = [] ∨ IsPathSeparator (tl.tail.headD 0) = true))) :
    isName ((c :: tl).takeWhile (fun b => !IsPathSeparator b)) := by
  rw [takeWhile_cons_nonsep c tl h1]
  have hc : c ≠ 47 := by simpa [IsPathSeparator] using h1
  refine ⟨by simp, ?_, ?_, ?_⟩
  · intro b hb
    rcases List.mem_cons.mp hb with rfl | hb
    · exact hc
    · have := List.mem_takeWhile_imp hb
      simpa [IsPathSeparator] using this
  · intro h
    have hc46 : c = 46 := by simpa using (List.cons.inj h).1
    have htw : tl.takeWhile (fun b => !IsPathSeparator b) = [] := (List.cons.inj h).2
    apply h2
    refine ⟨hc46, ?_⟩
    cases tl with
    | nil => exact Or.inl rfl
    | cons x xs =>
      right
      by_cases hx : IsPathSeparator x = true
      · simpa using hx
      · rw [takeWhile_cons_nonsep x xs hx] at htw
        exact absurd htw (by simp)
  · intro h
    have hc46 : c = 46 := by simpa using (List.cons.inj h).1
    have htw : tl.takeWhile (fun b => !IsPathSeparator b) = [46] := (List.cons.inj h).2
    apply h3
    cases tl with
    | nil => simp at htw
    | cons x xs =>
      by_cases hx : IsPathSeparator x = true
      · simp [List.takeWhile_cons, hx] at htw
      · rw [takeWhile_cons_nonsep x xs hx] at htw
        have hx46 : x = 46 := (List.cons.inj htw).1
        have htw2 : xs.takeWhile (fun b => !IsPathSeparator b) = [] := (List.cons.inj htw).2
        refine ⟨hc46, by simpa using hx46, ?_⟩
        cases xs with
        | nil => exact Or.inl rfl
        | cons y ys =>
          right
          by_cases hy : IsPathSeparator y = true
          · simpa using hy
          · rw [takeWhile_cons_nonsep y ys hy] at htw2
            exact absurd htw2 (by simp)

/-- The loop on a separator: an empty element, skipped. -/
theorem cleanStep_sep (rooted : Bool) (c : Byte) (tl out : GoString) (d : Nat)
    (h1 : IsPathSeparator c = true) :
    cleanStep rooted ⟨c :: tl, out, d⟩ = ⟨tl, out, d⟩ := by
  simp only [cleanStep, if_pos h1]

/-- The loop on a `.` element: skipped. -/
theorem cleanStep_dot (rooted : Bool) (c : Byte) (tl out : GoString) (d : Nat)
    (h1 : ¬ IsPathSeparator c = true)
    (h2 : c = 46 ∧ (tl = [] ∨ IsPathSeparator (tl.headD 0) = true)) :
    cleanStep rooted ⟨c :: tl, out, d⟩ = ⟨tl, out, d⟩ := by
  simp only [cleanStep, if_neg h1, if_pos h2]

/-- The loop on a `..` element of a rooted path: the last element is dropped when
there is one past `dotdot`, and nothing is written otherwise. -/
theorem cleanStep_dotdot_rooted (c : Byte) (tl out : GoString) (d : Nat)
    (h1 : ¬ IsPathSeparator c = true)
    (h2 : ¬ (c = 46 ∧ (tl = [] ∨ IsPathSeparator (tl.headD 0) = true)))
    (h3 : c = 46 ∧ tl.headD 0 = 46 ∧
      (tl.tail = [] ∨ IsPathSeparator (tl.tail.headD 0) = true)) :
    cleanStep true ⟨c :: tl, out, d⟩ =
      ⟨tl.tail, if out.length > d then out.take (backtrack out d (out.length - 1)) else out, d⟩ := by
  simp only [cleanStep, if_neg h1, if_neg h2, if_pos h3]
  by_cases h4 : out.length > d
  · simp only [if_pos h4]
  · simp [if_neg h4]

/-- The loop on a proper element: a separator is written unless the output is empty
(or is the leading `/` of a rooted path), then the element is copied. -/
theorem cleanStep_default (rooted : Bool) (c : Byte) (tl out : GoString) (d : Nat)
    (h1 : ¬ IsPathSeparator c = true)
    (h2 : ¬ (c = 46 ∧ (tl = [] ∨ IsPathSeparator (tl.headD 0) = true)))
    (h3 : ¬ (c = 46 ∧ tl.headD 0 = 46 ∧
      (tl.tail = [] ∨ IsPathSeparator (tl.tail.headD 0) = true))) :
    cleanStep rooted ⟨c :: tl, out, d⟩ =
      ⟨(c :: tl).dropWhile (fun b => !IsPathSeparator b),
        (if (rooted = true ∧ out.length ≠ 1) ∨ (¬ rooted = true ∧ out.length ≠ 0)
          then out ++ [47] else out)
          ++ (c :: tl).takeWhile (fun b => !IsPathSeparator b), d⟩ := by
  simp only [cleanStep, if_neg h1, if_neg h2, if_neg h3]

/-- One iteration of the loop on a rooted path keeps the output of the form `/` or
`/e1/.../en`, and keeps `dotdot` at 1. -/
theorem cleanStep_rooted (st : CleanState) (h : RootedClean st.out) (hd : st.dotdot = 1) :
    RootedClean (cleanStep true st).out ∧ (cleanStep true st).dotdot = 1 := by
  obtain ⟨rest, out, dotdot⟩ := st
  simp only at h hd
  subst hd
  cases rest with
  | nil => exact ⟨h, rfl⟩
  | cons c tl =>
    by_cases h1 : IsPathSeparator c = true
    · rw [cleanStep_sep true c tl out 1 h1]; exact ⟨h, rfl⟩
    by_cases h2 : c = 46 ∧ (tl = [] ∨ IsPathSeparator (tl.headD 0) = true)
    · rw [cleanStep_dot true c tl out 1 h1 h2]; exact ⟨h, rfl⟩
    by_cases h3 : c = 46 ∧ tl.headD 0 = 46 ∧
        (tl.tail = [] ∨ IsPathSeparator (tl.tail.headD 0) = true)
    · rw [cleanStep_dotdot_rooted c tl out 1 h1 h2 h3]
      refine ⟨?_, rfl⟩
      simp only
      rcases h with h | ⟨es, hne, hn, hout⟩
      · rw [h]
        left
        simp
      · rcases List.eq_nil_or_concat es with hnil | ⟨L, e, hL⟩
        · exact absurd hnil hne
        · rw [List.concat_eq_append] at hL
          subst hL
          have he := hn e (by simp)
          have hpre : ∀ x ∈ L, isName x := fun x hx => hn x (by simp [hx])
          rw [flat_append] at hout
          subst hout
          have hepos := List.length_pos.mpr he.1
          have hlen : (flat L ++ 47 :: e).length - 1 = (flat L).length + e.length := by
            simp
          have hbt := backtrack_spec (flat L) e 1 he.2.1 e.length (Nat.le_refl _) (by omega)
          have hgt : (flat L ++ 47 :: e).length > 1 := by
            simp only [List.length_append, List.length_cons]; omega
          rw [if_pos hgt, hlen, hbt]
          by_cases hLnil : L = []
          · subst hLnil
            left
            simp [flat]
          · right
            have := flat_length_ge L hLnil hpre
            refine ⟨L, hLnil, hpre, ?_⟩
            rw [Nat.max_eq_right (by omega)]
            simp
    · rw [cleanStep_default true c tl out 1 h1 h2 h3]
      refine ⟨?_, rfl⟩
      simp only
      have hname := takeWhile_isName c tl h1 h2 h3
      right
      rcases h with h | ⟨es, hne, hn, hout⟩
      · refine ⟨[(c :: tl).takeWhile (fun b => !IsPathSeparator b)], by simp, ?_, ?_⟩
        · intro x hx
          rw [List.mem_singleton.mp hx]; exact hname
        · rw [h]
          simp [flat]
      · refine ⟨es ++ [(c :: tl).takeWhile (fun b => !IsPathSeparator b)], by simp, ?_, ?_⟩
        · intro x hx
          rcases List.mem_append.mp hx with hx | hx
          · exact hn x hx
          · rw [List.mem_singleton.mp hx]; exact hname
        · have := flat_length_ge es hne hn
          rw [flat_append, hout]
          have hne1 : (flat es).length ≠ 1 := by omega
          simp [hne1]

/-- The loop on a rooted path keeps the output of the form `/` or `/e1/.../en`. -/
theorem cleanLoop_rooted (fuel : Nat) (st : CleanState) (h : RootedClean st.out)
    (hd : st.dotdot = 1) : RootedClean (cleanLoop true fuel st).out := by
  induction fuel generalizing st with
  | zero => exact h
  | succ n ih =>
    by_cases hr : st.rest = []
    · rw [cleanLoop_nil true _ st hr]; exact h
    · rw [cleanLoop_succ true n st hr]
      have := cleanStep_rooted st h hd
      exact ih _ this.1 this.2

/-- A cleaned rooted path is not empty. -/
theorem RootedClean_ne_nil (out : GoString) (h : RootedClean out) : out ≠ [] := by
  rcases h with h | ⟨es, hne, hn, hout⟩
  · rw [h]; simp
  · have := flat_length_ge es hne hn
    intro h0
    rw [hout] at h0
    rw [h0] at this
    simp at this

/-- Cleaning a rooted path gives `/` or `/e1/.../en` with proper elements: rooted,
and with no `..` left. -/
theorem Clean_rooted (path : GoString) (h : path.head? = some 47) :
    RootedClean (filepath.Clean path) := by
  cases path with
  | nil => simp at h
  | cons c tl =>
    have hc : c = 47 := by simpa using h
    subst hc
    have hl := cleanLoop_rooted (47 :: tl).length ⟨tl, [47], 1⟩ (Or.inl rfl) rfl
    have hne := RootedClean_ne_nil _ hl
    have hlen : (cleanLoop true (47 :: tl).length ⟨tl, [47], 1⟩).out.length ≠ 0 := by
      intro h0
      exact hne (List.length_eq_zero.mp h0)
    simp only [filepath.Clean, IsPathSeparator]
    simp only [List.headD_cons, List.tail_cons, decide_True, if_true]
    simp only [reduceCtorEq, if_false]
    rw [if_neg hlen]
    exact hl


/-- The loop at a proper element `e` that is followed by the end of the input or by a
separator takes its default case and copies exactly `e`. -/
theorem cleanStep_name (rooted : Bool) (e r out : GoString) (d : Nat) (he : isName e)
    (hr : r = [] ∨ ∃ r2, r = 47 :: r2) :
    cleanStep rooted ⟨e ++ r, out, d⟩ =
      ⟨r, (if (rooted = true ∧ out.length ≠ 1) ∨ (¬ rooted = true ∧ out.length ≠ 0)
            then out ++ [47] else out) ++ e, d⟩ := by
  obtain ⟨hne, hsep, h1dot, h2dot⟩ := he
  have hp : ∀ a ∈ e, (fun b => !IsPathSeparator b) a = true := by
    intro a ha
    simpa [IsPathSeparator] using hsep a ha
  have hrt : r.takeWhile (fun b => !IsPathSeparator b) = [] := by
    rcases hr with rfl | ⟨r2, rfl⟩ <;> simp [IsPathSeparator]
  have hrd : r.dropWhile (fun b => !IsPathSeparator b) = r := by
    rcases hr with rfl | ⟨r2, rfl⟩ <;> simp [IsPathSeparator]
  have htw : (e ++ r).takeWhile (fun b => !IsPathSeparator b) = e := by
    rw [List.takeWhile_append_of_pos hp, hrt, List.append_nil]
  have hdw : (e ++ r).dropWhile (fun b => !IsPathSeparator b) = r := by
    rw [List.dropWhile_append_of_pos hp, hrd]
  cases e with
  | nil => exact absurd rfl hne
  | cons c e1 =>
    have hc : c ≠ 47 := hsep c (by simp)
    have h1 : ¬ IsPathSeparator c = true := by simpa [IsPathSeparator] using hc
    have h2 : ¬ (c = 46 ∧ (e1 ++ r = [] ∨ IsPathSeparator ((e1 ++ r).headD 0) = true)) := by
      rintro ⟨hc46, hcase⟩
      cases e1 with
      | nil => exact h1dot (by rw [hc46])
      | cons x xs =>
        have hx : x ≠ 47 := hsep x (by simp)
        rcases hcase with hcase | hcase
        · simp at hcase
        · simp [IsPathSeparator] at hcase
          exact hx hcase
    have h3 : ¬ (c = 46 ∧ (e1 ++ r).headD 0 = 46 ∧
        ((e1 ++ r).tail = [] ∨ IsPathSeparator ((e1 ++ r).tail.headD 0) = true)) := by
      rintro ⟨hc46, hx46, hcase⟩
      cases e1 with
      | nil => exact h1dot (by rw [hc46])
      | cons x xs =>
        have hx : x = 46 := by simpa using hx46
        cases xs with
        | nil => exact h2dot (by rw [hc46, hx])
        | cons y ys =>
          have hy : y ≠ 47 := hsep y (by simp)
          rcases hcase with hcase | hcase
          · simp at hcase
          · simp [IsPathSeparator] at hcase
            exact hy hcase
    have hstep := cleanStep_default rooted c (e1 ++ r) out d h1 h2 h3
    rw [← List.cons_append] at hstep
    rw [hstep, htw, hdw]

/-- The loop on an input `/e1/.../en` of proper elements, with a non-empty output and
not rooted, appends the input as it is. -/
theorem cleanLoop_flat (es : List GoString) (hn : ∀ e ∈ es, isName e) :
    ∀ (fuel : Nat) (out : GoString) (d : Nat), out ≠ [] → (flat es).length ≤ fuel →
      (cleanLoop false fuel ⟨flat es, out, d⟩).out = out ++ flat es := by
  induction es with
  | nil =>
    intro fuel out d _ _
    rw [cleanLoop_nil false fuel _ rfl]
    simp [flat]
  | cons e es ih =>
    intro fuel out d hout hfuel
    have he := hn e (List.mem_cons_self e es)
    have hes : ∀ x ∈ es, isName x := fun x hx => hn x (List.mem_cons_of_mem e hx)
    have hepos := List.length_pos.mpr he.1
    simp only [flat, List.length_cons, List.length_append] at hfuel
    obtain ⟨f, rfl⟩ : ∃ f, fuel = f + 2 := ⟨fuel - 2, by omega⟩
    have hr : flat es = [] ∨ ∃ r2, flat es = 47 :: r2 := by
      cases es with
      | nil => exact Or.inl rfl
      | cons a as => exact Or.inr ⟨a ++ flat as, rfl⟩
    have houtlen : out.length ≠ 0 := fun h0 => hout (List.length_eq_zero.mp h0)
    simp only [flat, List.cons_append]
    rw [cleanLoop_succ false (f + 1) _ (by simp),
      cleanStep_sep false 47 (e ++ flat es) out d (by decide),
      cleanLoop_succ false f _ (by simp [he.1]),
      cleanStep_name false e (flat es) out d he hr,
      ih hes f _ d (by simp [he.1]) (by omega)]
    simp [houtlen]


/-- Cleaning a path that does not begin with a separator: the loop starts on the
whole path with an empty output. -/
theorem Clean_relative (c : Byte) (tl : GoString) (hc : c ≠ 47) :
    filepath.Clean (c :: tl) =
      if (cleanLoop false (c :: tl).length ⟨c :: tl, [], 0⟩).out.length = 0 then [46]
      else (cleanLoop false (c :: tl).length ⟨c :: tl, [], 0⟩).out := by
  have hrooted : IsPathSeparator c = false := by simpa [IsPathSeparator] using hc
  simp only [filepath.Clean, List.headD_cons, hrooted]
  simp only [reduceCtorEq, if_false, Bool.false_eq_true]

/-- Joining a proper element `root` and a cleaned rooted path gives `root` followed by
proper elements: `root`, or `root/e1/.../en`. -/
theorem Join_under (root abs : GoString) (hroot : isName root) (habs : RootedClean abs) :
    ∃ es : List GoString, (∀ e ∈ es, isName e) ∧ filepath.Join [root, abs] = root ++ flat es := by
  have hne := hroot.1
  obtain ⟨c, r1, rfl⟩ : ∃ c r1, root = c :: r1 := by
    cases root with
    | nil => exact absurd rfl hne
    | cons c r1 => exact ⟨c, r1, rfl⟩
  have hc : c ≠ 47 := hroot.2.1 c (by simp)
  have hjoin : filepath.Join [c :: r1, abs]
      = filepath.Clean ((c :: r1) ++ 47 :: abs) := by
    simp [filepath.Join, strings.Join, lit_slash]
  have hloop : ∃ es : List GoString, (∀ e ∈ es, isName e) ∧
      (cleanLoop false ((c :: r1) ++ 47 :: abs).length ⟨(c :: r1) ++ 47 :: abs, [], 0⟩).out
        = (c :: r1) ++ flat es := by
    have hfuel : ((c :: r1) ++ 47 :: abs).length = (r1.length + abs.length) + 2 := by
      simp only [List.length_append, List.length_cons]; omega
    rw [hfuel, cleanLoop_succ false _ _ (by simp),
      cleanStep_name false (c :: r1) (47 :: abs) [] 0 hroot (Or.inr ⟨abs, rfl⟩),
      cleanLoop_succ false _ _ (by simp),
      cleanStep_sep false 47 abs _ 0 (by decide)]
    rcases habs with h | ⟨es, _, hn, hout⟩
    · subst h
      refine ⟨[], by simp, ?_⟩
      obtain ⟨f, hf⟩ : ∃ f, r1.length + [47].length = f + 1 := ⟨r1.length, by simp⟩
      rw [hf, cleanLoop_succ false _ _ (by simp), cleanStep_sep false 47 [] _ 0 (by decide),
        cleanLoop_nil false _ _ rfl]
      simp [flat]
    · subst hout
      refine ⟨es, hn, ?_⟩
      rw [cleanLoop_flat es hn _ _ 0 (by simp) (by omega)]
      simp
  obtain ⟨es, hn, hout⟩ := hloop
  refine ⟨es, hn, ?_⟩
  rw [hjoin, List.cons_append, Clean_relative c _ hc, ← List.cons_append, hout]
  simp

/-- A text without a separator is a single element. -/
theorem components_nosep (e : GoString) (h : ∀ b ∈ e, b ≠ 47) : components e = [e] := by
  induction e with
  | nil => rfl
  | cons c cs ih =>
    have hc : c ≠ 47 := h c (by simp)
    have hcs := ih (fun b hb => h b (by simp [hb]))
    simp [components, hc, hcs]

/-- The elements of `e/r` are `e` and the elements of `r`. -/
theorem components_append_sep (e r : GoString) (h : ∀ b ∈ e, b ≠ 47) :
    components (e ++ 47 :: r) = e :: components r := by
  induction e with
  | nil => simp [components]
  | cons c cs ih =>
    have hc : c ≠ 47 := h c (by simp)
    have hcs := ih (fun b hb => h b (by simp [hb]))
    simp [components, hc, hcs]

/-- The elements of `e1/e2/.../en` are `e1, ..., en`. -/
theorem components_flat (es : List GoString) (hn : ∀ x ∈ es, isName x) :
    ∀ e : GoString, (∀ b ∈ e, b ≠ 47) → components (e ++ flat es) = e :: es := by
  induction es with
  | nil =>
    intro e he
    simp [flat, components_nosep e he]
  | cons a as ih =>
    intro e he
    have ha := hn a (List.mem_cons_self a as)
    have has : ∀ x ∈ as, isName x := fun x hx => hn x (List.mem_cons_of_mem a hx)
    simp only [flat, List.cons_append]
    rw [components_append_sep e _ he, ih has a ha.2.1]

/-- A path `root/e1/.../en` with proper elements lies under `root`. -/
theorem liesUnder_flat (root : GoString) (es : List GoString) (hn : ∀ x ∈ es, isName x) :
    liesUnder root (root ++ flat es) := by
  cases es with
  | nil => left; simp [flat]
  | cons a as =>
    right
    have ha := hn a (List.mem_cons_self a as)
    have has : ∀ x ∈ as, isName x := fun x hx => hn x (List.mem_cons_of_mem a hx)
    have hsplit : root ++ flat (a :: as) = (root ++ [47]) ++ (a ++ flat as) := by
      simp [flat]
    have hlen : root.length + 1 = (root ++ [47]).length := by simp
    rw [hsplit, hlen, List.take_left, List.drop_left, components_flat as has a ha.2.1]
    refine ⟨rfl, ?_⟩
    intro hmem
    rcases List.mem_cons.mp hmem with h | h
    · exact ha.2.2.2 h.symm
    · exact (has _ h).2.2.2 rfl

/-- The predicate `liesUnder` rejects the paths that leave the root. -/
theorem liesUnder_rejects_escapes :
    ¬ liesUnder (lit "static") (lit "/etc/passwd")
    ∧ ¬ liesUnder (lit "static") (lit "static/../etc/passwd")
    ∧ ¬ liesUnder (lit "static") (lit "static/a/../../etc")
    ∧ ¬ liesUnder (lit "static") (lit "staticfoo")
    ∧ ¬ liesUnder (lit "static") (lit "etc/passwd") := by
  decide

/-- A request path that does not begin with `/` is joined to the working directory;
when `os.Getwd` gives a rooted directory, the path `ServeHTTP` stats lies under
`static` as well. -/
theorem spaHandler_relative_path_under_static (wd urlPath : GoString)
    (hwd : wd.head? = some 47) (hrel : filepath.IsAbs urlPath = false) :
    filepath.Abs (wd, none) urlPath = (filepath.Join [wd, urlPath], none)
    ∧ liesUnder spa.staticPath
        (filepath.Join [spa.staticPath, filepath.Join [wd, urlPath]]) := by
  have habs : filepath.Abs (wd, none) urlPath = (filepath.Join [wd, urlPath], none) := by
    simp [filepath.Abs, hrel]
  refine ⟨habs, ?_⟩
  obtain ⟨r, rfl⟩ : ∃ r, wd = 47 :: r := by
    cases wd with
    | nil => simp at hwd
    | cons c r => exact ⟨r, by simpa using hwd⟩
  have hjoin : filepath.Join [47 :: r, urlPath]
      = filepath.Clean ((47 :: r) ++ 47 :: urlPath) := by
    simp [filepath.Join, strings.Join, lit_slash]
  obtain ⟨es, hn, hj⟩ := Join_under spa.staticPath (filepath.Join [47 :: r, urlPath])
    (by decide) (by rw [hjoin]; exact Clean_rooted _ rfl)
  rw [hj]
  exact liesUnder_flat _ es hn

/-- Claim C5: for every request path that begins with `/`, whatever `..` elements it has,
`filepath.Abs` succeeds with the cleaned path, the path `ServeHTTP` stats,
`filepath.Join(staticPath, path)`, is `static` itself or starts with `static/` and has
no `..` element after it, and whatever `ServeHTTP` serves stays within `static`: the
index file `static/index.html` or the file server rooted at `static`. -/
theorem C5_spaHandler_stays_under_static (getwd : GoString × Option GoError)
    (stat : GoString → Option GoError) (urlPath : GoString) (hroot : urlPath.head? = some 47) :
    filepath.Abs getwd urlPath = (filepath.Clean urlPath, none)
    ∧ liesUnder spa.staticPath (filepath.Join [spa.staticPath, filepath.Clean urlPath])
    ∧ Response.confined spa.staticPath (spa.ServeHTTP getwd stat urlPath) := by
  have habs : filepath.Abs getwd urlPath = (filepath.Clean urlPath, none) := by
    simp [filepath.Abs, filepath.IsAbs, hroot]
  refine ⟨habs, ?_, ?_⟩
  · obtain ⟨es, hn, hj⟩ := Join_under spa.staticPath (filepath.Clean urlPath) (by decide)
      (Clean_rooted urlPath hroot)
    rw [hj]
    exact liesUnder_flat _ es hn
  · simp only [spaHandler.ServeHTTP, habs]
    cases stat (filepath.Join [spa.staticPath, filepath.Clean urlPath]) with
    | none => exact rfl
    | some err =>
      simp only [http.ServeFile]
      split_ifs
      · exact True.intro
      · exact True.intro
      · show liesUnder spa.staticPath (filepath.Join [spa.staticPath, spa.indexPath])
        decide
      · exact True.intro

/-- Claim C5 at the request path `/../../etc/passwd`: the path the handler stats is
`static/etc/passwd`, under `static`. -/
theorem C5_spaHandler_stays_under_static_witness :
    (lit "/../../etc/passwd").head? = some 47
    ∧ filepath.Join [spa.staticPath, filepath.Clean (lit "/../../etc/passwd")]
        = lit "static/etc/passwd"
    ∧ (filepath.Abs ([], some GoError.getwdError) (lit "/../../etc/passwd")
        = (filepath.Clean (lit "/../../etc/passwd"), none)
      ∧ liesUnder spa.staticPath
          (filepath.Join [spa.staticPath, filepath.Clean (lit "/../../etc/passwd")])
      ∧ Response.confined spa.staticPath
          (spa.ServeHTTP ([], some GoError.getwdError) (fun _ => none)
            (lit "/../../etc/passwd"))) :=
  ⟨by decide, by decide,
    C5_spaHandler_stays_under_static ([], some GoError.getwdError) (fun _ => none)
      (lit "/../../etc/passwd") (by decide)⟩

/-- What does hold of a missing file: when `filepath.Abs` has given a path, `os.Stat`
reports "no such file or directory" at the joined path, and the request path has no
`..` element and does not end in `/index.html`, `ServeHTTP` has `http.ServeFile` serve
`filepath.Join(staticPath, indexPath)`, which is `static/index.html`. -/
theorem spaHandler_plain_missing_path_serves_index (getwd : GoString × Option GoError)
    (stat : GoString → Option GoError) (urlPath : GoString)
    (habs : (filepath.Abs getwd urlPath).2 = none)
    (hmiss : os.IsNotExist
      (stat (filepath.Join [spa.staticPath, (filepath.Abs getwd urlPath).1])) = true)
    (hdots : containsDotDot urlPath = false)
    (hindex : strings.HasSuffix urlPath (lit "/index.html") = false) :
    spa.ServeHTTP getwd stat urlPath = Response.serveFile (lit "static/index.html") := by
  have hidx : filepath.Join [spa.staticPath, spa.indexPath] = lit "static/index.html" := by
    decide
  rcases hA : filepath.Abs getwd urlPath with ⟨abs, e⟩
  rw [hA] at habs hmiss
  simp only at habs hmiss
  subst habs
  simp only [spaHandler.ServeHTTP, hA]
  cases hs : stat (filepath.Join [spa.staticPath, abs]) with
  | none => rw [hs] at hmiss; simp [os.IsNotExist] at hmiss
  | some err =>
    rw [hs] at hmiss
    simp [hmiss, http.ServeFile, hdots, hindex, hidx]

/-- Claim C6, the code at two failing inputs, on a disk that holds `static/index.html`
and nothing else.  For the request path `/missing/index.html` nothing exists at the
joined path and `os.Stat` says so, yet the answer is the redirect 301 to `./` that
`http.ServeFile` gives a request path ending in `/index.html`, not the index file.
For the request path `/index.html/foo` nothing exists at the joined path either, but
`os.Stat` reports "not a directory", which `os.IsNotExist` does not cover, and the
answer is the error 500. -/
theorem C6_missing_path_not_answered_with_index :
    (spaDisk (filepath.Join [spa.staticPath,
        (filepath.Abs ([], some GoError.getwdError) (lit "/missing/index.html")).1]) = none
      ∧ os.IsNotExist (os.Stat spaDisk (lit "static/missing/index.html")) = true
      ∧ spa.ServeHTTP ([], some GoError.getwdError) (os.Stat spaDisk)
          (lit "/missing/index.html") = Response.redirect 301 (lit "./"))
    ∧ (spaDisk (filepath.Join [spa.staticPath,
        (filepath.Abs ([], some GoError.getwdError) (lit "/index.html/foo")).1]) = none
      ∧ spa.ServeHTTP ([], some GoError.getwdError) (os.Stat spaDisk)
          (lit "/index.html/foo")
        = Response.error 500 (GoError.notDir (lit "static/index.html/foo"))) := by
  decide

end WebControl
